import Mathlib

/-!
Verification of the `mangi-meta` trend oscillator (src/main.py).

Floats are modelled as real numbers; Python ints as `ℤ`/`ℕ`.  The Python
truthiness guard `x or 1e-12` is modelled by `if x = 0 then 1e-12 else x`,
and the Python float `%` (sign follows the divisor) by
`fmod x y = x - y * ⌊x / y⌋`.
-/

/- ── Module-level tuning constants (src/main.py lines 13-22) ── -/

def UPPER_BAND : ℝ := 87.3

def LOWER_BAND : ℝ := 12.7

def KAPPA_PERIOD : ℤ := 14

def VEXEL_SMOOTHING : ℤ := 3

def PHASE_OFFSET_RAD : ℝ := 0.4128

def CONVERGENCE_FACTOR : ℝ := 0.0671

def DOMINANT_WEIGHT : ℝ := 0.62

def SECONDARY_WEIGHT : ℝ := 0.38

def SEED_NORMALIZER : ℝ := 1000.0

def CROSSOVER_THRESHOLD : ℝ := 0.0044

/-- `OscillatorConfig` dataclass: immutable oscillator parameters. -/
structure OscillatorConfig where
  upper : ℝ
  lower : ℝ
  period : ℤ
  smooth : ℤ
  phase_rad : ℝ
  conv_factor : ℝ
  dom_weight : ℝ
  sec_weight : ℝ

/-- The default (and only) configuration built by `OscillatorConfig()`. -/
def OscillatorConfig.default : OscillatorConfig :=
  { upper := UPPER_BAND
    lower := LOWER_BAND
    period := KAPPA_PERIOD
    smooth := VEXEL_SMOOTHING
    phase_rad := PHASE_OFFSET_RAD
    conv_factor := CONVERGENCE_FACTOR
    dom_weight := DOMINANT_WEIGHT
    sec_weight := SECONDARY_WEIGHT }

/-- `TrendState` dataclass: current trend oscillator state. -/
structure TrendState where
  value : ℝ
  phase : ℝ
  momentum : ℝ
  crossover_signal : ℤ
  epoch : ℕ

/-- The default state `TrendState()` used at engine construction. -/
def TrendState.default : TrendState :=
  { value := 50.0, phase := 0.0, momentum := 0.0, crossover_signal := 0, epoch := 0 }

/-- The `MangiMeta` engine object: config, state, previous-value tracker
and history list. -/
structure MangiMeta where
  config : OscillatorConfig
  state : TrendState
  prev_value : ℝ
  history : List ℝ

/-- `MangiMeta.__init__`. -/
def MangiMeta.init : MangiMeta :=
  { config := OscillatorConfig.default
    state := TrendState.default
    prev_value := 50.0
    history := [] }

/-- `MangiMeta._clamp`: `max(lower, min(upper, x))`. -/
def clamp (cfg : OscillatorConfig) (x : ℝ) : ℝ :=
  max cfg.lower (min cfg.upper x)

/-- `MangiMeta._smooth_series`: trailing moving average with a growing
window at the start; identity when `n < 1` or the series is shorter
than `n`. -/
noncomputable def smooth_series (series : List ℝ) (n : ℤ) : List ℝ :=
  if n < 1 ∨ (series.length : ℤ) < n then series
  else
    (List.range series.length).map (fun i =>
      let start := i + 1 - n.toNat
      let window := (series.drop start).take (i + 1 - start)
      window.sum / (window.length : ℝ))

/-- Cumulative positive deltas over consecutive pairs
(`sum(max(0, recent[i] - recent[i-1]))`). -/
def pairGain (recent : List ℝ) : ℝ :=
  ((recent.zip recent.tail).map (fun p => max 0 (p.2 - p.1))).sum

/-- Cumulative negative deltas, negated to positive
(`sum(max(0, recent[i-1] - recent[i]))`). -/
def pairLoss (recent : List ℝ) : ℝ :=
  ((recent.zip recent.tail).map (fun p => max 0 (p.1 - p.2))).sum

/-- The guarded kappa denominator:
`(gain + loss * math.tan(phase)) or 1e-12`. -/
noncomputable def kappaDenom (recent : List ℝ) (phase : ℝ) : ℝ :=
  let d := pairGain recent + pairLoss recent * Real.tan phase
  if d = 0 then 1e-12 else d

/-- `MangiMeta._kappa_component`: phase-shifted momentum component. -/
noncomputable def kappa_component (cfg : OscillatorConfig) (series : List ℝ)
    (phase : ℝ) : ℝ :=
  if (series.length : ℤ) < cfg.period then 50.0
  else
    let recent := series.drop (series.length - cfg.period.toNat)
    let raw := pairGain recent - pairLoss recent * Real.tan phase
    let rs := raw / kappaDenom recent phase
    50.0 + 50.0 * Real.arctan (rs * cfg.conv_factor) / (Real.pi / 2)

/-- The guarded vexel span: `(high - low) or 1e-12`. -/
noncomputable def vexelSpan (window : List ℝ) : ℝ :=
  let high := window.foldl max (window.headD 0)
  let low := window.foldl min (window.headD 0)
  if high - low = 0 then 1e-12 else high - low

/-- `MangiMeta._vexel_component`: northern-bound convergence component. -/
noncomputable def vexel_component (cfg : OscillatorConfig) (series : List ℝ) : ℝ :=
  if (series.length : ℤ) < cfg.period then 50.0
  else
    let window := series.drop (series.length - cfg.period.toNat)
    let low := window.foldl min (window.headD 0)
    let last := window.getLastD 0
    let pct := (last - low) / vexelSpan window
    cfg.lower + pct * (cfg.upper - cfg.lower)

/-- Python float modulo for the phase wrap: `x - y * ⌊x / y⌋`
(for `y > 0` the result lies in `[0, y)`). -/
noncomputable def fmod (x y : ℝ) : ℝ := x - y * ⌊x / y⌋

/-- `MangiMeta.update`: advance oscillator state from series data.
Returns the whole engine (the Python method mutates `self` and returns
`self._state`; here the new engine carries that state). -/
noncomputable def MangiMeta.update (m : MangiMeta) : List ℝ → MangiMeta
  | [] => m
  | a :: rest =>
    let series := a :: rest
    let smoothed := smooth_series series m.config.smooth
    let kappa := kappa_component m.config smoothed m.config.phase_rad
    let vexel := vexel_component m.config smoothed
    let combined := m.config.dom_weight * kappa + m.config.sec_weight * vexel
    let value := clamp m.config combined
    let momentum := value - m.prev_value
    let crossover : ℤ :=
      if CROSSOVER_THRESHOLD * SEED_NORMALIZER ≤ |value - m.prev_value| then
        (if m.prev_value < value then 1 else -1)
      else 0
    let phase := fmod (m.state.phase + PHASE_OFFSET_RAD) (2 * Real.pi)
    { config := m.config
      state :=
        { value := value
          phase := phase
          momentum := momentum
          crossover_signal := crossover
          epoch := m.state.epoch + 1 }
      prev_value := value
      history := m.history ++ [value] }

/-- `MangiMeta.signal`: current crossover signal. -/
def MangiMeta.signal (m : MangiMeta) : ℤ := m.state.crossover_signal

/-- `MangiMeta.value`: current clamped oscillator value. -/
def MangiMeta.value (m : MangiMeta) : ℝ := m.state.value

/-- `MangiMeta.in_overbought` as the proposition the Python boolean decides. -/
def MangiMeta.in_overbought (m : MangiMeta) : Prop :=
  m.config.upper - (UPPER_BAND - LOWER_BAND) * 0.1 ≤ m.state.value

/-- `MangiMeta.in_oversold` as the proposition the Python boolean decides. -/
def MangiMeta.in_oversold (m : MangiMeta) : Prop :=
  m.state.value ≤ m.config.lower + (UPPER_BAND - LOWER_BAND) * 0.1

/-- The 10-point `DEMO_SERIES` from src/main.py. -/
def DEMO_SERIES : List ℝ :=
  [104.2, 106.8, 105.1, 108.9, 107.3, 110.2, 109.0, 111.5, 112.1, 110.8]

/-- Engines reachable from a fresh `MangiMeta()` by `update` calls. -/
inductive Reachable : MangiMeta → Prop where
  | init : Reachable MangiMeta.init
  | step (m : MangiMeta) (series : List ℝ) :
      Reachable m → Reachable (m.update series)

/-- Fold a list of input series through `update`, starting from `m`. -/
noncomputable def runUpdates (m : MangiMeta) (calls : List (List ℝ)) : MangiMeta :=
  calls.foldl MangiMeta.update m

/- ── Unfolding lemmas for `update` on a non-empty series ── -/

/-- The blended (pre-clamp) score an update computes for a series. -/
noncomputable def combinedScore (m : MangiMeta) (series : List ℝ) : ℝ :=
  m.config.dom_weight *
      kappa_component m.config (smooth_series series m.config.smooth) m.config.phase_rad
    + m.config.sec_weight *
      vexel_component m.config (smooth_series series m.config.smooth)

lemma update_config (m : MangiMeta) (s : List ℝ) : (m.update s).config = m.config := by
  cases s <;> rfl

lemma update_value_cons (m : MangiMeta) (a : ℝ) (rest : List ℝ) :
    (m.update (a :: rest)).state.value = clamp m.config (combinedScore m (a :: rest)) := rfl

lemma update_epoch_cons (m : MangiMeta) (a : ℝ) (rest : List ℝ) :
    (m.update (a :: rest)).state.epoch = m.state.epoch + 1 := rfl

lemma update_phase_cons (m : MangiMeta) (a : ℝ) (rest : List ℝ) :
    (m.update (a :: rest)).state.phase
      = fmod (m.state.phase + PHASE_OFFSET_RAD) (2 * Real.pi) := rfl

lemma update_history_cons (m : MangiMeta) (a : ℝ) (rest : List ℝ) :
    (m.update (a :: rest)).history
      = m.history ++ [(m.update (a :: rest)).state.value] := rfl

lemma update_prev_cons (m : MangiMeta) (a : ℝ) (rest : List ℝ) :
    (m.update (a :: rest)).prev_value = (m.update (a :: rest)).state.value := rfl

lemma update_momentum_cons (m : MangiMeta) (a : ℝ) (rest : List ℝ) :
    (m.update (a :: rest)).state.momentum
      = (m.update (a :: rest)).state.value - m.prev_value := rfl

lemma update_crossover_cons (m : MangiMeta) (a : ℝ) (rest : List ℝ) :
    (m.update (a :: rest)).state.crossover_signal
      = if CROSSOVER_THRESHOLD * SEED_NORMALIZER
            ≤ |(m.update (a :: rest)).state.value - m.prev_value| then
          (if m.prev_value < (m.update (a :: rest)).state.value then 1 else -1)
        else 0 := rfl

/- ── fmod arithmetic ── -/

lemma fmod_eq_fract {y : ℝ} (hy : y ≠ 0) (x : ℝ) :
    fmod x y = y * Int.fract (x / y) := by
  unfold fmod Int.fract
  field_simp

lemma fmod_nonneg (x : ℝ) {y : ℝ} (hy : 0 < y) : 0 ≤ fmod x y := by
  rw [fmod_eq_fract hy.ne']
  exact mul_nonneg hy.le (Int.fract_nonneg _)

lemma fmod_lt (x : ℝ) {y : ℝ} (hy : 0 < y) : fmod x y < y := by
  rw [fmod_eq_fract hy.ne']
  calc y * Int.fract (x / y) < y * 1 :=
        (mul_lt_mul_left hy).mpr (Int.fract_lt_one _)
    _ = y := mul_one y

lemma fmod_add_int_mul (x : ℝ) {y : ℝ} (hy : y ≠ 0) (k : ℤ) :
    fmod (x + y * k) y = fmod x y := by
  unfold fmod
  have hdiv : (x + y * k) / y = x / y + k := by
    field_simp
    ring
  rw [hdiv, Int.floor_add_int]
  push_cast
  ring

lemma fmod_fmod_add (a b : ℝ) {y : ℝ} (hy : y ≠ 0) :
    fmod (fmod a y + b) y = fmod (a + b) y := by
  have harg : fmod a y + b = (a + b) + y * ((-⌊a / y⌋ : ℤ) : ℝ) := by
    unfold fmod
    push_cast
    ring
  rw [harg, fmod_add_int_mul _ hy]

lemma fmod_self_of_mem (p : ℝ) {y : ℝ} (hy : y ≠ 0) :
    fmod (fmod p y) y = fmod p y := by
  have h := fmod_fmod_add p 0 hy
  simpa using h

/- ── Length and configuration invariants ── -/

lemma smooth_length (series : List ℝ) (n : ℤ) :
    (smooth_series series n).length = series.length := by
  unfold smooth_series
  split
  · rfl
  · simp

lemma reachable_config {m : MangiMeta} (h : Reachable m) :
    m.config = OscillatorConfig.default := by
  induction h with
  | init => rfl
  | step m s _ ih => rw [update_config]; exact ih

lemma le_clamp (cfg : OscillatorConfig) (x : ℝ) : cfg.lower ≤ clamp cfg x :=
  le_max_left _ _

lemma clamp_le (cfg : OscillatorConfig) (x : ℝ) (h : cfg.lower ≤ cfg.upper) :
    clamp cfg x ≤ cfg.upper :=
  max_le h (min_le_left _ _)

/- ── Crossover decision helper ── -/

lemma crossover_cases (v1 v2 : ℝ) :
    ((if (4.4 : ℝ) ≤ |v2 - v1| then (if v1 < v2 then (1 : ℤ) else -1) else 0) = 1
        ↔ 4.4 ≤ v2 - v1)
    ∧ ((if (4.4 : ℝ) ≤ |v2 - v1| then (if v1 < v2 then (1 : ℤ) else -1) else 0) = -1
        ↔ 4.4 ≤ v1 - v2)
    ∧ ((if (4.4 : ℝ) ≤ |v2 - v1| then (if v1 < v2 then (1 : ℤ) else -1) else 0) = 0
        ↔ ¬ (4.4 : ℝ) ≤ v2 - v1 ∧ ¬ (4.4 : ℝ) ≤ v1 - v2) := by
  by_cases habs : (4.4 : ℝ) ≤ |v2 - v1|
  · by_cases hlt : v1 < v2
    · have h2 : (4.4 : ℝ) ≤ v2 - v1 := by
        rwa [abs_of_pos (sub_pos.mpr hlt)] at habs
      have h3 : ¬ (4.4 : ℝ) ≤ v1 - v2 := by linarith
      simp [habs, hlt, h2, h3]
    · have hle : v2 ≤ v1 := not_lt.mp hlt
      have h2 : (4.4 : ℝ) ≤ v1 - v2 := by
        rwa [abs_of_nonpos (sub_nonpos.mpr hle), neg_sub] at habs
      have h3 : ¬ (4.4 : ℝ) ≤ v2 - v1 := by linarith
      simp [habs, hlt, h2, h3]
  · have h1 : ¬ (4.4 : ℝ) ≤ v2 - v1 := fun h =>
      habs (le_trans h (le_abs_self _))
    have h2 : ¬ (4.4 : ℝ) ≤ v1 - v2 := by
      intro h
      apply habs
      calc (4.4 : ℝ) ≤ v1 - v2 := h
        _ = -(v2 - v1) := by ring
        _ ≤ |v2 - v1| := neg_le_abs _
    simp [habs, h1, h2]

/- ── Claim theorems ── -/

/-- Claim C1: in every reachable engine state, the fresh one included,
the stored value lies within the configured band:
`lower <= value <= upper` (the blended score is clamped before being
stored). -/
theorem value_bounded (m : MangiMeta) (h : Reachable m) :
    m.config.lower ≤ m.state.value ∧ m.state.value ≤ m.config.upper := by
  induction h with
  | init =>
    constructor <;>
      norm_num [MangiMeta.init, OscillatorConfig.default, TrendState.default,
        LOWER_BAND, UPPER_BAND]
  | step m s hm ih =>
    cases s with
    | nil => exact ih
    | cons a rest =>
      have hcfg : m.config = OscillatorConfig.default := reachable_config hm
      have hlu : m.config.lower ≤ m.config.upper := by
        rw [hcfg]
        norm_num [OscillatorConfig.default, LOWER_BAND, UPPER_BAND]
      rw [update_config, update_value_cons]
      exact ⟨le_clamp _ _, clamp_le _ _ hlu⟩

/-- Witness for C1: the bound evaluated at the fresh engine. -/
theorem value_bounded_witness :
    MangiMeta.init.config.lower ≤ MangiMeta.init.state.value
    ∧ MangiMeta.init.state.value ≤ MangiMeta.init.config.upper :=
  value_bounded MangiMeta.init Reachable.init

/-- Claim C5: updating with an empty series is a no-op, not an error:
the whole engine (state, previous-value tracker, history) is unchanged
and the current state is what the call yields. -/
theorem update_empty_noop (m : MangiMeta) : m.update [] = m := rfl

/-- Claim C9: the epoch counter starts at 0, increases by exactly 1 on
every non-empty update, and is untouched by an empty-series update. -/
theorem epoch_spec :
    MangiMeta.init.state.epoch = 0
    ∧ (∀ (m : MangiMeta) (s : List ℝ), s ≠ [] →
        (m.update s).state.epoch = m.state.epoch + 1)
    ∧ (∀ m : MangiMeta, (m.update []).state.epoch = m.state.epoch) := by
  refine ⟨rfl, ?_, fun m => rfl⟩
  intro m s h
  obtain ⟨a, rest, rfl⟩ := List.exists_cons_of_ne_nil h
  rfl

/-- Witness for C9: epoch facts evaluated on a fresh engine and one
concrete non-empty update. -/
theorem epoch_spec_witness :
    MangiMeta.init.state.epoch = 0
    ∧ (MangiMeta.init.update [1]).state.epoch = MangiMeta.init.state.epoch + 1 :=
  ⟨epoch_spec.1, epoch_spec.2.1 MangiMeta.init [1] (List.cons_ne_nil 1 [])⟩

/-- Claim C7: `in_overbought` holds iff the value is at least the
configured `upper` minus the margin `(UPPER_BAND - LOWER_BAND) * 0.1
= 7.46` computed from the original fixed band constants, and
`in_oversold` holds iff the value is at most the configured `lower`
plus that same fixed margin; both are pure functions of the engine
(side-effect-free queries). -/
theorem band_query_spec (m : MangiMeta) :
    (m.in_overbought ↔ m.config.upper - 7.46 ≤ m.state.value)
    ∧ (m.in_oversold ↔ m.state.value ≤ m.config.lower + 7.46)
    ∧ (UPPER_BAND - LOWER_BAND) * 0.1 = 7.46 := by
  have h : (UPPER_BAND - LOWER_BAND) * (0.1 : ℝ) = 7.46 := by
    norm_num [UPPER_BAND, LOWER_BAND]
  unfold MangiMeta.in_overbought MangiMeta.in_oversold
  rw [h]
  exact ⟨Iff.rfl, Iff.rfl, rfl⟩

/-- Claim C8: the two divisions of the sub-components are guarded: the
kappa denominator and the vexel span are replaced by `1e-12` when the
raw quantity is zero, so they are never zero (their absolute value is
positive) and no division failure can occur. -/
theorem guarded_divisions_spec (recent window : List ℝ) (phase : ℝ) :
    0 < |kappaDenom recent phase| ∧ 0 < |vexelSpan window| := by
  constructor
  · unfold kappaDenom
    dsimp only
    split
    · norm_num
    · next hne => exact abs_pos.mpr hne
  · unfold vexelSpan
    dsimp only
    split
    · norm_num
    · next hne => exact abs_pos.mpr hne

/-- Claim C3: after an update with a non-empty series, the stored
crossover signal is `+1` iff the new value exceeds the previous value
by at least `4.4 = CROSSOVER_THRESHOLD * SEED_NORMALIZER`, `-1` iff it
falls short by at least `4.4`, and `0` otherwise; before the first
update the previous value is the default `50.0`. -/
theorem crossover_signal_spec (m : MangiMeta) (s : List ℝ) (h : s ≠ []) :
    CROSSOVER_THRESHOLD * SEED_NORMALIZER = 4.4
    ∧ MangiMeta.init.prev_value = 50
    ∧ ((m.update s).state.crossover_signal = 1
        ↔ 4.4 ≤ (m.update s).state.value - m.prev_value)
    ∧ ((m.update s).state.crossover_signal = -1
        ↔ 4.4 ≤ m.prev_value - (m.update s).state.value)
    ∧ ((m.update s).state.crossover_signal = 0
        ↔ ¬ (4.4 : ℝ) ≤ (m.update s).state.value - m.prev_value
          ∧ ¬ (4.4 : ℝ) ≤ m.prev_value - (m.update s).state.value) := by
  obtain ⟨a, rest, rfl⟩ := List.exists_cons_of_ne_nil h
  have hthr : CROSSOVER_THRESHOLD * SEED_NORMALIZER = (4.4 : ℝ) := by
    norm_num [CROSSOVER_THRESHOLD, SEED_NORMALIZER]
  refine ⟨hthr, by norm_num [MangiMeta.init], ?_, ?_, ?_⟩
  · rw [update_crossover_cons, hthr]
    exact (crossover_cases _ _).1
  · rw [update_crossover_cons, hthr]
    exact (crossover_cases _ _).2.1
  · rw [update_crossover_cons, hthr]
    exact (crossover_cases _ _).2.2

/-- Witness for C3: the crossover characterization evaluated at the
fresh engine and the one-point series `[1]`. -/
theorem crossover_signal_spec_witness :
    CROSSOVER_THRESHOLD * SEED_NORMALIZER = 4.4
    ∧ MangiMeta.init.prev_value = 50
    ∧ ((MangiMeta.init.update [1]).state.crossover_signal = 1
        ↔ 4.4 ≤ (MangiMeta.init.update [1]).state.value - MangiMeta.init.prev_value)
    ∧ ((MangiMeta.init.update [1]).state.crossover_signal = -1
        ↔ 4.4 ≤ MangiMeta.init.prev_value - (MangiMeta.init.update [1]).state.value)
    ∧ ((MangiMeta.init.update [1]).state.crossover_signal = 0
        ↔ ¬ (4.4 : ℝ) ≤ (MangiMeta.init.update [1]).state.value - MangiMeta.init.prev_value
          ∧ ¬ (4.4 : ℝ) ≤ MangiMeta.init.prev_value - (MangiMeta.init.update [1]).state.value) :=
  crossover_signal_spec MangiMeta.init [1] (List.cons_ne_nil 1 [])

/-- Claim C4: the smoothing operation is length-preserving; when
`1 <= n <= len(series)` element `i` is the arithmetic mean of the
input slice from `max(0, i - n + 1)` through `i`; when `n < 1` or the
input is shorter than `n` the input is returned unchanged; and an
empty input yields an empty output. -/
theorem smooth_spec (series : List ℝ) (n : ℤ) :
    (smooth_series series n).length = series.length
    ∧ (1 ≤ n → n ≤ (series.length : ℤ) →
        ∀ (i : ℕ) (hi : i < (smooth_series series n).length),
          (smooth_series series n).get ⟨i, hi⟩
            = ((series.take (i + 1)).drop (i + 1 - n.toNat)).sum
              / (((series.take (i + 1)).drop (i + 1 - n.toNat)).length : ℝ))
    ∧ (n < 1 ∨ (series.length : ℤ) < n → smooth_series series n = series)
    ∧ smooth_series ([] : List ℝ) n = [] := by
  refine ⟨smooth_length series n, ?_, ?_, ?_⟩
  · intro h1 h2 i hi
    have hcond : ¬ (n < 1 ∨ (series.length : ℤ) < n) := by
      push_neg
      exact ⟨h1, h2⟩
    have hi2 : i < series.length := by rwa [smooth_length] at hi
    simp only [List.get_eq_getElem]
    simp only [smooth_series, if_neg hcond, List.getElem_map, List.getElem_range]
    rw [List.drop_take]
  · intro hcond
    unfold smooth_series
    rw [if_pos hcond]
  · unfold smooth_series
    split <;> simp

/-- Witness for C4: the smoothing contract evaluated at the concrete
series `[1, 2, 3]`, with the main-window clause at index 1 and window
2, the identity clause at window 5, and the empty-input clause. -/
theorem smooth_spec_witness :
    (smooth_series [(1 : ℝ), 2, 3] 2).length = ([(1 : ℝ), 2, 3] : List ℝ).length
    ∧ (smooth_series [(1 : ℝ), 2, 3] 2).get
          ⟨1, by rw [smooth_length]; norm_num⟩
        = ((([(1 : ℝ), 2, 3] : List ℝ).take 2).drop (2 - (2 : ℤ).toNat)).sum
          / (((([(1 : ℝ), 2, 3] : List ℝ).take 2).drop (2 - (2 : ℤ).toNat)).length : ℝ)
    ∧ smooth_series [(1 : ℝ), 2, 3] 5 = [(1 : ℝ), 2, 3]
    ∧ smooth_series ([] : List ℝ) 2 = [] := by
  refine ⟨(smooth_spec [(1 : ℝ), 2, 3] 2).1, ?_, ?_, (smooth_spec [(1 : ℝ), 2, 3] 2).2.2.2⟩
  · exact (smooth_spec [(1 : ℝ), 2, 3] 2).2.1 (by norm_num) (by norm_num) 1
      (by rw [smooth_length]; norm_num)
  · exact (smooth_spec [(1 : ℝ), 2, 3] 5).2.2.1 (Or.inr (by norm_num))

/-- Claim C2: a non-empty series whose smoothed form is shorter than the
period makes both sub-components return the neutral 50.0, so one update
of a fresh engine stores `value = clamp(0.62*50 + 0.38*50) = 50`
exactly and `epoch = 1`. -/
theorem neutral_spec (series : List ℝ) (hne : series ≠ [])
    (hlen : ((smooth_series series VEXEL_SMOOTHING).length : ℤ) < KAPPA_PERIOD) :
    kappa_component OscillatorConfig.default (smooth_series series VEXEL_SMOOTHING)
        PHASE_OFFSET_RAD = 50.0
    ∧ vexel_component OscillatorConfig.default (smooth_series series VEXEL_SMOOTHING)
        = 50.0
    ∧ clamp OscillatorConfig.default (DOMINANT_WEIGHT * 50.0 + SECONDARY_WEIGHT * 50.0)
        = 50.0
    ∧ (MangiMeta.init.update series).state.value = 50.0
    ∧ (MangiMeta.init.update series).state.epoch = 1 := by
  obtain ⟨a, rest, rfl⟩ := List.exists_cons_of_ne_nil hne
  have hlen2 : ((smooth_series (a :: rest) VEXEL_SMOOTHING).length : ℤ)
      < OscillatorConfig.default.period := hlen
  have hk : kappa_component OscillatorConfig.default
      (smooth_series (a :: rest) VEXEL_SMOOTHING) PHASE_OFFSET_RAD = 50.0 := by
    unfold kappa_component
    rw [if_pos hlen2]
  have hv : vexel_component OscillatorConfig.default
      (smooth_series (a :: rest) VEXEL_SMOOTHING) = 50.0 := by
    unfold vexel_component
    rw [if_pos hlen2]
  have hc : clamp OscillatorConfig.default
      (DOMINANT_WEIGHT * 50.0 + SECONDARY_WEIGHT * 50.0) = 50.0 := by
    unfold clamp
    have hcomb : DOMINANT_WEIGHT * (50.0 : ℝ) + SECONDARY_WEIGHT * 50.0 = 50.0 := by
      norm_num [DOMINANT_WEIGHT, SECONDARY_WEIGHT]
    rw [hcomb]
    rw [min_eq_right (by norm_num [OscillatorConfig.default, UPPER_BAND]),
      max_eq_right (by norm_num [OscillatorConfig.default, LOWER_BAND])]
  refine ⟨hk, hv, hc, ?_, rfl⟩
  rw [update_value_cons]
  unfold combinedScore
  have e1 : MangiMeta.init.config = OscillatorConfig.default := rfl
  rw [e1]
  have e2 : OscillatorConfig.default.smooth = VEXEL_SMOOTHING := rfl
  have e3 : OscillatorConfig.default.phase_rad = PHASE_OFFSET_RAD := rfl
  have e4 : OscillatorConfig.default.dom_weight = DOMINANT_WEIGHT := rfl
  have e5 : OscillatorConfig.default.sec_weight = SECONDARY_WEIGHT := rfl
  rw [e2, e3, e4, e5, hk, hv]
  exact hc

/-- Witness for C2: the end-to-end demo run: one update of a fresh
engine with the 10-point demo series stores value 50 and epoch 1. -/
theorem neutral_spec_witness :
    (MangiMeta.init.update DEMO_SERIES).state.value = 50.0
    ∧ (MangiMeta.init.update DEMO_SERIES).state.epoch = 1 := by
  have h1 : DEMO_SERIES ≠ [] := by simp [DEMO_SERIES]
  have h2 : ((smooth_series DEMO_SERIES VEXEL_SMOOTHING).length : ℤ) < KAPPA_PERIOD := by
    rw [smooth_length]
    norm_num [DEMO_SERIES, KAPPA_PERIOD]
  exact ⟨(neutral_spec DEMO_SERIES h1 h2).2.2.2.1,
    (neutral_spec DEMO_SERIES h1 h2).2.2.2.2⟩

/- ── runUpdates helpers ── -/

lemma runUpdates_nil (m : MangiMeta) : runUpdates m [] = m := rfl

lemma runUpdates_cons (m : MangiMeta) (s : List ℝ) (ss : List (List ℝ)) :
    runUpdates m (s :: ss) = runUpdates (m.update s) ss := rfl

lemma runUpdates_phase (ss : List (List ℝ)) :
    ∀ m : MangiMeta, (∀ s ∈ ss, s ≠ []) →
      fmod m.state.phase (2 * Real.pi) = m.state.phase →
      (runUpdates m ss).state.phase
        = fmod (m.state.phase + (ss.length : ℝ) * PHASE_OFFSET_RAD) (2 * Real.pi) := by
  induction ss with
  | nil =>
    intro m _ hfix
    simpa using hfix.symm
  | cons s ss ih =>
    intro m hall hfix
    have hs : s ≠ [] := hall s (by simp)
    obtain ⟨a, rest, rfl⟩ := List.exists_cons_of_ne_nil hs
    rw [runUpdates_cons]
    have h2pi : (2 * Real.pi) ≠ 0 := Real.two_pi_pos.ne'
    have hstep : (MangiMeta.update m (a :: rest)).state.phase
        = fmod (m.state.phase + PHASE_OFFSET_RAD) (2 * Real.pi) :=
      update_phase_cons m a rest
    have hfix2 : fmod (MangiMeta.update m (a :: rest)).state.phase (2 * Real.pi)
        = (MangiMeta.update m (a :: rest)).state.phase := by
      rw [hstep]
      exact fmod_self_of_mem _ h2pi
    rw [ih (m.update (a :: rest)) (fun t ht => hall t (by simp [ht])) hfix2,
      hstep, fmod_fmod_add _ _ h2pi]
    congr 1
    simp only [List.length_cons]
    push_cast
    ring

/-- Claim C6: after any `k` non-empty updates of a fresh engine, the
phase equals `(k * phaseRad) mod 2π` (here exactly, since reals replace
floats), each non-empty update advances the phase by `phaseRad` modulo
`2π`, and the phase always lies in `[0, 2π)`. -/
theorem phase_spec (ss : List (List ℝ)) (h : ∀ s ∈ ss, s ≠ []) :
    (runUpdates MangiMeta.init ss).state.phase
        = fmod ((ss.length : ℝ) * PHASE_OFFSET_RAD) (2 * Real.pi)
    ∧ 0 ≤ (runUpdates MangiMeta.init ss).state.phase
    ∧ (runUpdates MangiMeta.init ss).state.phase < 2 * Real.pi
    ∧ ∀ (m : MangiMeta) (s : List ℝ), s ≠ [] →
        (m.update s).state.phase
          = fmod (m.state.phase + PHASE_OFFSET_RAD) (2 * Real.pi) := by
  have h2pi : (0 : ℝ) < 2 * Real.pi := Real.two_pi_pos
  have hzero : MangiMeta.init.state.phase = 0 := by
    norm_num [MangiMeta.init, TrendState.default]
  have hfix : fmod MangiMeta.init.state.phase (2 * Real.pi)
      = MangiMeta.init.state.phase := by
    rw [hzero]
    unfold fmod
    simp
  have hmain : (runUpdates MangiMeta.init ss).state.phase
      = fmod ((ss.length : ℝ) * PHASE_OFFSET_RAD) (2 * Real.pi) := by
    rw [runUpdates_phase ss MangiMeta.init h hfix, hzero, zero_add]
  refine ⟨hmain, ?_, ?_, ?_⟩
  · rw [hmain]
    exact fmod_nonneg _ h2pi
  · rw [hmain]
    exact fmod_lt _ h2pi
  · intro m s hs
    obtain ⟨a, rest, rfl⟩ := List.exists_cons_of_ne_nil hs
    exact update_phase_cons m a rest

/-- Witness for C6: the phase facts evaluated after the single
non-empty update `[[1]]` of a fresh engine. -/
theorem phase_spec_witness :
    (runUpdates MangiMeta.init [[(1 : ℝ)]]).state.phase
        = fmod ((([[(1 : ℝ)]] : List (List ℝ)).length : ℝ) * PHASE_OFFSET_RAD)
            (2 * Real.pi)
    ∧ 0 ≤ (runUpdates MangiMeta.init [[(1 : ℝ)]]).state.phase
    ∧ (runUpdates MangiMeta.init [[(1 : ℝ)]]).state.phase < 2 * Real.pi := by
  have h := phase_spec [[(1 : ℝ)]] (by
    intro s hs
    simp only [List.mem_singleton] at hs
    rw [hs]
    exact List.cons_ne_nil 1 [])
  exact ⟨h.1, h.2.1, h.2.2.1⟩

/-- Claim C10: in every reachable engine the history length equals the
epoch and the previous-value tracker equals the current state value; a
non-empty update appends exactly its new clamped value to the history
(earlier entries untouched, insertion order kept) and stores as
momentum the new value minus the preceding state's value. -/
theorem history_spec (m : MangiMeta) (h : Reachable m) :
    m.history.length = m.state.epoch
    ∧ m.prev_value = m.state.value
    ∧ ∀ s : List ℝ, s ≠ [] →
        (m.update s).history = m.history ++ [(m.update s).state.value]
        ∧ (m.update s).state.momentum
            = (m.update s).state.value - m.state.value := by
  induction h with
  | init =>
    refine ⟨rfl, rfl, ?_⟩
    intro s hs
    obtain ⟨a, rest, rfl⟩ := List.exists_cons_of_ne_nil hs
    exact ⟨update_history_cons _ _ _, update_momentum_cons _ _ _⟩
  | step m s hm ih =>
    cases s with
    | nil => exact ih
    | cons a rest =>
      obtain ⟨ihlen, ihprev, _⟩ := ih
      refine ⟨?_, update_prev_cons m a rest, ?_⟩
      · rw [update_history_cons, update_epoch_cons]
        simp [ihlen]
      · intro t ht
        obtain ⟨b, rest2, rfl⟩ := List.exists_cons_of_ne_nil ht
        refine ⟨update_history_cons _ _ _, ?_⟩
        rw [update_momentum_cons, update_prev_cons]

/-- Witness for C10: the history and momentum facts evaluated at the
fresh engine and one concrete non-empty update. -/
theorem history_spec_witness :
    MangiMeta.init.history.length = MangiMeta.init.state.epoch
    ∧ MangiMeta.init.prev_value = MangiMeta.init.state.value
    ∧ ((MangiMeta.init.update [1]).history
          = MangiMeta.init.history ++ [(MangiMeta.init.update [1]).state.value]
      ∧ (MangiMeta.init.update [1]).state.momentum
          = (MangiMeta.init.update [1]).state.value - MangiMeta.init.state.value) := by
  have h := history_spec MangiMeta.init Reachable.init
  exact ⟨h.1, h.2.1, h.2.2 [1] (List.cons_ne_nil 1 [])⟩
